import Mathlib

/-!
Verification of the simulation engine in `src/evm.rs` (the `Evm` struct and
its operations) against its specification.  The engine orchestrates an
external execution backend (foundry/revm); that backend is out of scope of
the repository and is modelled here from its interface contract in the spec
(§3, §6): such definitions carry a doc comment starting
`Modelled from the spec:`.  Everything else is translated from the source.
-/

namespace Temper

/-- Ethereum addresses, modelled as naturals (H160 values). -/
abbrev Address := Nat

/-- 256-bit words (balances, storage slots and values), modelled as naturals. -/
abbrev U256 := Nat

/-- Association-list lookup: first binding of the key wins (HashMap model). -/
def lookupA {α β : Type} [DecidableEq α] : List (α × β) → α → Option β
  | [], _ => none
  | (k, v) :: rest, k' => if k = k' then some v else lookupA rest k'

/-- Association-list insert that overwrites any previous binding of the key. -/
def insertA {α β : Type} [DecidableEq α] (l : List (α × β)) (k : α) (v : β) :
    List (α × β) :=
  (k, v) :: l.filter (fun p => p.1 ≠ k)

/-- HashMap `extend`: insert every binding of `news` into `l`, later entries
overwriting earlier ones. -/
def extendA {α β : Type} [DecidableEq α] (l news : List (α × β)) :
    List (α × β) :=
  news.foldl (fun acc p => insertA acc p.1 p.2) l

/-- Basic account info held by the backend (revm `AccountInfo`): balance,
nonce and optional bytecode.  `Default` is the zero account with no code. -/
structure AccountInfo where
  balance : U256
  nonce : Nat
  code : Option (List Nat)
deriving Repr, DecidableEq

/-- The `Default` instance of revm `AccountInfo`: zero balance, zero nonce,
no code. -/
def AccountInfo.default : AccountInfo := { balance := 0, nonce := 0, code := none }

/-- An account value as passed to the backend commit (revm `Account`):
info, a storage patch, and the `storage_cleared` flag marking the storage
fully replaced. -/
structure Account where
  info : AccountInfo
  storage : List (U256 × U256)
  storage_cleared : Bool
deriving Repr, DecidableEq

/-- Modelled from the spec: revm `Account::new_not_existing()` as used by
`override_account` — default info, empty storage, storage not cleared. -/
def Account.new_not_existing : Account :=
  { info := AccountInfo.default, storage := [], storage_cleared := false }

/-- Modelled from the spec: the backend's lazily-populated forked state
snapshot.  `accounts` and `storage` are the locally known entries,
`cleared` lists the addresses whose storage has been fully replaced (no
lazy fetch; absent slots read as zero), and `basicErr` lists the addresses
for which the basic-info read fails. -/
structure BackendState where
  accounts : List (Address × AccountInfo)
  storage : List ((Address × U256) × U256)
  cleared : List Address
  basicErr : List Address
deriving Repr, DecidableEq

/-- Modelled from the spec: `basic_info(address) -> AccountInfo | not-found`,
failing for addresses in `basicErr`. -/
def BackendState.basic (st : BackendState) (a : Address) :
    Except Unit (Option AccountInfo) :=
  if a ∈ st.basicErr then .error () else .ok (lookupA st.accounts a)

/-- Modelled from the spec: reading a storage slot.  A locally known entry
wins; otherwise a fully-replaced account reads zero and any other account
lazily fetches the slot from the remote fork `fork`. -/
def BackendState.readStorage (fork : Address → U256 → U256) (st : BackendState)
    (a : Address) (s : U256) : U256 :=
  match lookupA st.storage (a, s) with
  | some v => v
  | none => if a ∈ st.cleared then 0 else fork a s

/-- Modelled from the spec: committing one account to the backend
(`commit(address -> AccountInfo mapping)`).  The info is replaced; with
`storage_cleared` the account's storage entries are dropped, the address is
marked fully replaced and the patch installed; otherwise the patch extends
the existing entries. -/
def BackendState.commit (st : BackendState) (a : Address) (acc : Account) :
    BackendState :=
  let accounts := insertA st.accounts a acc.info
  let patch := acc.storage.map (fun p => ((a, p.1), p.2))
  if acc.storage_cleared then
    { st with
      accounts := accounts
      cleared := a :: st.cleared
      storage := extendA (st.storage.filter (fun p => p.1.1 ≠ a)) patch }
  else
    { st with
      accounts := accounts
      storage := extendA st.storage patch }

/-- Block part of the execution context (`env.block`). -/
structure BlockEnv where
  number : Nat
  timestamp : Nat
  gas_limit : Nat
deriving Repr, DecidableEq

/-- Transaction part of the execution context (`env.tx`). -/
structure TxEnv where
  gas_price : Nat
  access_list : List (Address × List U256)
deriving Repr, DecidableEq

/-- Configuration part of the execution context (`env.cfg`). -/
structure CfgEnv where
  chain_id : Nat
deriving Repr, DecidableEq

/-- The mutable execution context (revm `Env`). -/
structure Env where
  cfg : CfgEnv
  block : BlockEnv
  tx : TxEnv
deriving Repr, DecidableEq

/-- A node of the call-trace tree: its rendered text line and its children.
Decoding (signature resolution, address labels) is best-effort enrichment
performed by the external decoder; in this model a node carries the text it
renders to. -/
inductive TraceNode where
  | mk : String → List TraceNode → TraceNode

/-- The rendered text line of a trace node itself (without its subtree). -/
def TraceNode.text : TraceNode → String
  | .mk s _ => s

/-- The children of a trace node. -/
def TraceNode.children : TraceNode → List TraceNode
  | .mk _ kids => kids

/-- A trace arena: the list of root trace nodes of one execution. -/
abbrev CallTraceArena := List TraceNode

mutual

/-- Modelled from the spec: rendering one trace node — its own line followed
by its children, depth-first. -/
def renderNode : TraceNode → String
  | .mk s kids => s ++ renderList kids

/-- Rendering a list of sibling trace nodes in order. -/
def renderList : List TraceNode → String
  | [] => ""
  | k :: ks => renderNode k ++ renderList ks

end

/-- Modelled from the spec: rendering a whole arena, root nodes in order. -/
def renderArena (arena : CallTraceArena) : String :=
  renderList arena

mutual

/-- The depth-first pre-order listing of a trace node's subtree. -/
def preorderNode : TraceNode → List TraceNode
  | .mk s kids => .mk s kids :: preorderList kids

/-- The depth-first pre-order listing of a forest, trees in order. -/
def preorderList : List TraceNode → List TraceNode
  | [] => []
  | k :: ks => preorderNode k ++ preorderList ks

end

/-- The depth-first pre-order listing of all nodes of an arena. -/
def preorderArena (arena : CallTraceArena) : List TraceNode :=
  preorderList arena

/-- Modelled from the spec: the outcome the backend's execution semantics
produces for one call — result fields, the raw trace arena, the resulting
execution context, and the account-state diff the execution produced
(applied only by committing calls). -/
structure ExecOutcome where
  gas_used : Nat
  reverted : Bool
  exit_reason : Nat
  logs : List Nat
  result : List Nat
  traces : CallTraceArena
  env : Env
  diff : List (Address × Account)

/-- Modelled from the spec: the backend's execution semantics, a function of
the execution context, the current state and the call parameters
(`from`, `to`, `data`, `value`), failing when the backend rejects the
call. -/
abbrev ExecSem :=
  Env → BackendState → Address → Address → List Nat → U256 →
    Except Unit ExecOutcome

/-- Applying an account-state diff to the backend, one commit per account. -/
def applyDiff (st : BackendState) (diff : List (Address × Account)) :
    BackendState :=
  diff.foldl (fun acc p => acc.commit p.1 p.2) st

/-- The executor bound to one fork: its execution context, its state
snapshot, and whether tracing was enabled at construction. -/
structure Executor where
  env : Env
  db : BackendState
  tracing : Bool
deriving Repr, DecidableEq

/-- Modelled from the spec: the raw result foundry's `Executor::call_raw`
returns — gas, revert flag, exit reason, logs, return data, the traces
(present only when tracing is enabled) and the resulting context. -/
structure RawCallResult where
  gas_used : Nat
  reverted : Bool
  exit_reason : Nat
  logs : List Nat
  result : List Nat
  traces : Option CallTraceArena
  env : Env

/-- The result fields assembled from an execution outcome. -/
def ExecOutcome.toRaw (o : ExecOutcome) (tracing : Bool) : RawCallResult :=
  { gas_used := o.gas_used
    reverted := o.reverted
    exit_reason := o.exit_reason
    logs := o.logs
    result := o.result
    traces := if tracing then some o.traces else none
    env := o.env }

/-- Modelled from the spec: `Executor::call_raw` — executes against current
state without persisting any resulting mutation (the diff is discarded). -/
def Executor.call_raw (sem : ExecSem) (ex : Executor) (sender recipient : Address)
    (data : List Nat) (value : U256) : Except Unit (RawCallResult × Executor) :=
  match sem ex.env ex.db sender recipient data value with
  | .error e => .error e
  | .ok o => .ok (o.toRaw ex.tracing, ex)

/-- Modelled from the spec: `Executor::call_raw_committing` — identical to
`call_raw` except the produced state diff is persisted into the backend. -/
def Executor.call_raw_committing (sem : ExecSem) (ex : Executor)
    (sender recipient : Address) (data : List Nat) (value : U256) :
    Except Unit (RawCallResult × Executor) :=
  match sem ex.env ex.db sender recipient data value with
  | .error e => .error e
  | .ok o => .ok (o.toRaw ex.tracing, { ex with db := applyDiff ex.db o.diff })

/-- Modelled from the spec: `EvmError`, the execution-failure error of the
repository's `errors` module (not under `src/`), wrapping the backend's
error report. -/
structure EvmError where
  report : Unit
deriving Repr, DecidableEq

/-- Modelled from the spec: `OverrideError`, the override-failure error of
the repository's `errors` module (not under `src/`), a unit struct. -/
inductive OverrideError where
  | mk
deriving Repr, DecidableEq

/-- One item of an EIP-2930 access list: an address and its storage keys. -/
structure AccessListItem where
  address : Address
  storage_keys : List U256
deriving Repr, DecidableEq

/-- An EIP-2930 access list. -/
abbrev AccessList := List AccessListItem

/-- The `CallRawRequest` structure of `evm.rs` (`from`/`to` are rendered as
`sender`/`recipient`). -/
structure CallRawRequest where
  sender : Address
  recipient : Address
  value : Option U256
  data : Option (List Nat)
  access_list : Option AccessList
  format_trace : Bool

/-- The `CallRawResult` structure of `evm.rs`. -/
structure CallRawResult where
  gas_used : Nat
  block_number : Nat
  success : Bool
  trace : Option CallTraceArena
  logs : List Nat
  exit_reason : Nat
  return_data : List Nat
  formatted_trace : Option String

/-- The `StorageOverride` structure of `evm.rs`: a slot-to-value map plus
the `diff` flag. -/
structure StorageOverride where
  slots : List (U256 × U256)
  diff : Bool
deriving Repr, DecidableEq

/-- The `Evm` struct of `evm.rs`: the executor plus the trace decoder's
identifier handles (the decoder itself only affects trace enrichment). -/
structure Evm where
  executor : Executor
  etherscan_identifier : Option String
  has_signature_identifier : Bool
deriving Repr, DecidableEq

/-- Translation of `Evm::set_access_list`: overwrite the context's tx access
list with the converted items of the given list, or clear it when absent. -/
def Evm.set_access_list (evm : Evm) (access_list : Option AccessList) : Evm :=
  let tx := { evm.executor.env.tx with
    access_list := (access_list.getD []).map
      (fun item => (item.address, item.storage_keys)) }
  { evm with executor := { evm.executor with
      env := { evm.executor.env with tx := tx } } }

/-- Translation of the trace-formatting block shared by `call_raw` and
`call_raw_committing`: iterate over the optional trace arena (zero or one),
decode it and append its rendered form to an initially empty string. -/
def formatTraces (traces : Option CallTraceArena) : String :=
  match traces with
  | none => ""
  | some arena => renderArena arena

/-- Assembly of a `CallRawResult` from the backend's raw result, shared by
`call_raw` and `call_raw_committing`. -/
def assembleResult (res : RawCallResult) (formatted_trace : Option String) :
    CallRawResult :=
  { gas_used := res.gas_used
    block_number := res.env.block.number
    success := !res.reverted
    trace := res.traces
    logs := res.logs
    exit_reason := res.exit_reason
    return_data := res.result
    formatted_trace := formatted_trace }

/-- Translation of `Evm::call_raw`: set the access list, execute without
committing, then assemble the result, formatting the traces when
requested.  The pair returns the mutated `Evm` alongside the result, the
mutation surviving an execution error (`&mut self`). -/
def Evm.call_raw (sem : ExecSem) (evm : Evm) (call : CallRawRequest) :
    Except EvmError CallRawResult × Evm :=
  let evm := evm.set_access_list call.access_list
  match evm.executor.call_raw sem call.sender call.recipient
      (call.data.getD []) (call.value.getD 0) with
  | .error e => (.error { report := e }, evm)
  | .ok (res, ex) =>
    let formatted_trace :=
      if call.format_trace then some (formatTraces res.traces) else none
    (.ok (assembleResult res formatted_trace), { evm with executor := ex })

/-- Translation of `Evm::call_raw_committing`: identical to `call_raw`
except the executor is asked to persist the resulting mutations. -/
def Evm.call_raw_committing (sem : ExecSem) (evm : Evm)
    (call : CallRawRequest) : Except EvmError CallRawResult × Evm :=
  let evm := evm.set_access_list call.access_list
  match evm.executor.call_raw_committing sem call.sender call.recipient
      (call.data.getD []) (call.value.getD 0) with
  | .error e => (.error { report := e }, evm)
  | .ok (res, ex) =>
    let formatted_trace :=
      if call.format_trace then some (formatTraces res.traces) else none
    (.ok (assembleResult res formatted_trace), { evm with executor := ex })

/-- The account value `Evm::override_account` builds before committing:
the current (or default) basic info with the provided balance, nonce, code
and storage overrides merged on top. -/
def mergeAccount (info : AccountInfo) (balance : Option U256)
    (nonce : Option Nat) (code : Option (List Nat))
    (storage : Option StorageOverride) : Account :=
  let account := { Account.new_not_existing with info := info }
  let account := match balance with
    | some b => { account with info := { account.info with balance := b } }
    | none => account
  let account := match nonce with
    | some n => { account with info := { account.info with nonce := n } }
    | none => account
  let account := match code with
    | some c => { account with info := { account.info with code := some c } }
    | none => account
  match storage with
  | some so =>
    { account with
      storage_cleared := !so.diff
      storage := extendA account.storage so.slots }
  | none => account

/-- Translation of `Evm::override_account`: read the address's basic info
(failing with `OverrideError` when the read fails, with `self` untouched),
merge the provided overrides on top of it (or of the default account when
the address is unknown), and commit the merged account to the backend. -/
def Evm.override_account (evm : Evm) (address : Address)
    (balance : Option U256) (nonce : Option Nat) (code : Option (List Nat))
    (storage : Option StorageOverride) : Except OverrideError Unit × Evm :=
  match evm.executor.db.basic address with
  | .error _ => (.error .mk, evm)
  | .ok info? =>
    let account := mergeAccount (info?.getD AccountInfo.default)
      balance nonce code storage
    (.ok (), { evm with executor := { evm.executor with
        db := evm.executor.db.commit address account } })

/-- Translation of `Evm::set_block`: write the context's block number;
always succeeds. -/
def Evm.set_block (evm : Evm) (number : Nat) : Except EvmError Unit × Evm :=
  (.ok (), { evm with executor := { evm.executor with
      env := { evm.executor.env with
        block := { evm.executor.env.block with number := number } } } })

/-- Translation of `Evm::get_block`. -/
def Evm.get_block (evm : Evm) : U256 :=
  evm.executor.env.block.number

/-- Translation of `Evm::set_block_timestamp`: write the context's block
timestamp; always succeeds. -/
def Evm.set_block_timestamp (evm : Evm) (timestamp : Nat) :
    Except EvmError Unit × Evm :=
  (.ok (), { evm with executor := { evm.executor with
      env := { evm.executor.env with
        block := { evm.executor.env.block with timestamp := timestamp } } } })

/-- Translation of `Evm::get_block_timestamp`. -/
def Evm.get_block_timestamp (evm : Evm) : U256 :=
  evm.executor.env.block.timestamp

/-- Translation of `Evm::get_chain_id`. -/
def Evm.get_chain_id (evm : Evm) : U256 :=
  evm.executor.env.cfg.chain_id

/-- The `EvmOpts` environment values set by `Evm::new`: optional chain id
and gas price, and a gas limit. -/
structure EvmOptsEnv where
  chain_id : Option Nat
  gas_price : Option Nat
  gas_limit : Nat
deriving Repr, DecidableEq

/-- Modelled from the spec: the data establishing the forked snapshot —
remote chain id, anchor block number and timestamp, and the spawned
backend's initial state. -/
structure ForkInfo where
  chain_id : Nat
  block_number : Nat
  timestamp : Nat
  db : BackendState
deriving Repr, DecidableEq

/-- Modelled from the spec: foundry's `evm_env_blocking`, building the
execution context from the fork anchor with the opts values superseding
(explicit chain id, gas price defaulting to zero, the opts gas limit). -/
def evm_env_blocking (opts : EvmOptsEnv) (fork : ForkInfo) : Env :=
  { cfg := { chain_id := opts.chain_id.getD fork.chain_id }
    block := { number := fork.block_number
               timestamp := fork.timestamp
               gas_limit := opts.gas_limit }
    tx := { gas_price := opts.gas_price.getD 0, access_list := [] } }

/-- The value of `u64::MAX`. -/
def u64MAX : Nat := 2 ^ 64 - 1

/-- Translation of `Evm::new`.  The external initializations —
`EtherscanIdentifier::new` (the labeler, needing a credential) and
`SignaturesIdentifier::new` — are passed in as their `Result` outcomes and
consumed with `.ok()` as in the source: their failure never fails the
construction. -/
def Evm.new (env : Option Env) (fork : ForkInfo) (tracing : Bool)
    (etherscanInit : Except Unit String) (signaturesInit : Except Unit Unit) :
    Evm :=
  let evm_opts_env : EvmOptsEnv :=
    { chain_id := none, gas_price := some 0, gas_limit := u64MAX }
  let fork_env := evm_env_blocking evm_opts_env fork
  let executor : Executor :=
    { env := env.getD fork_env, db := fork.db, tracing := tracing }
  { executor := executor
    etherscan_identifier := etherscanInit.toOption
    has_signature_identifier := signaturesInit.toOption.isSome }

/-! Concrete fixtures used by the witness theorems. -/

/-- A concrete backend state: account 1 known with two storage slots,
address 9 failing the basic-info read. -/
def db0 : BackendState :=
  { accounts := [(1, { balance := 100, nonce := 1, code := none })]
    storage := [((1, 1), 5), ((1, 2), 6)]
    cleared := []
    basicErr := [9] }

/-- A concrete execution context. -/
def env0 : Env :=
  { cfg := { chain_id := 1 }
    block := { number := 10, timestamp := 1000, gas_limit := 30000000 }
    tx := { gas_price := 0, access_list := [] } }

/-- A concrete engine with tracing enabled. -/
def evm0 : Evm :=
  { executor := { env := env0, db := db0, tracing := true }
    etherscan_identifier := none
    has_signature_identifier := true }

/-- A concrete engine with tracing disabled. -/
def evm1 : Evm :=
  { executor := { env := env0, db := db0, tracing := false }
    etherscan_identifier := none
    has_signature_identifier := true }

/-- A small concrete trace tree. -/
def node0 : TraceNode := .mk "A" [.mk "B" [], .mk "C" []]

/-- A concrete successful execution outcome with one trace root and a
one-account diff. -/
def outcome0 : ExecOutcome :=
  { gas_used := 21000
    reverted := false
    exit_reason := 0
    logs := []
    result := []
    traces := [node0]
    env := env0
    diff := [(2, { info := { balance := 7, nonce := 0, code := none }
                   storage := []
                   storage_cleared := false })] }

/-- A concrete execution semantics always returning `outcome0`. -/
def sem0 : ExecSem := fun _ _ _ _ _ _ => .ok outcome0

/-- A concrete call request asking for a formatted trace. -/
def call0 : CallRawRequest :=
  { sender := 1
    recipient := 2
    value := none
    data := none
    access_list := none
    format_trace := true }

/-- The result `call_raw` produces for `sem0` on the traced engine. -/
def res0 : CallRawResult :=
  { gas_used := 21000
    block_number := 10
    success := true
    trace := some [node0]
    logs := []
    exit_reason := 0
    return_data := []
    formatted_trace := some "ABC" }

/-- The result `call_raw` produces for `sem0` on the untraced engine. -/
def res1 : CallRawResult :=
  { gas_used := 21000
    block_number := 10
    success := true
    trace := none
    logs := []
    exit_reason := 0
    return_data := []
    formatted_trace := some "" }

/-! Helper lemmas. -/

theorem set_access_list_db (evm : Evm) (al : Option AccessList) :
    (Evm.set_access_list evm al).executor.db = evm.executor.db := rfl

theorem set_access_list_tracing (evm : Evm) (al : Option AccessList) :
    (Evm.set_access_list evm al).executor.tracing = evm.executor.tracing := rfl

theorem set_access_list_idem (evm : Evm) (al : Option AccessList) :
    Evm.set_access_list (Evm.set_access_list evm al) al
      = Evm.set_access_list evm al := rfl

theorem call_raw_db_eq (sem : ExecSem) (evm : Evm) (call : CallRawRequest) :
    (Evm.call_raw sem evm call).2.executor.db = evm.executor.db := by
  simp only [Evm.call_raw, Executor.call_raw]
  cases sem (Evm.set_access_list evm call.access_list).executor.env
      (Evm.set_access_list evm call.access_list).executor.db
      call.sender call.recipient (call.data.getD []) (call.value.getD 0) with
  | error e => rfl
  | ok o => rfl

theorem lookupA_insertA_self {α β : Type} [DecidableEq α]
    (l : List (α × β)) (k : α) (v : β) :
    lookupA (insertA l k v) k = some v := by
  simp [insertA, lookupA]

theorem lookupA_filter_ne {α β : Type} [DecidableEq α]
    (l : List (α × β)) (k k' : α) (h : k' ≠ k) :
    lookupA (l.filter (fun p => p.1 ≠ k)) k' = lookupA l k' := by
  induction l with
  | nil => rfl
  | cons p rest ih =>
    obtain ⟨pk, pv⟩ := p
    by_cases hp : pk = k
    · rw [List.filter_cons_of_neg (by simp [hp])]
      rw [ih]
      simp only [lookupA]
      rw [if_neg (fun hc => h (hc.symm.trans hp))]
    · rw [List.filter_cons_of_pos (by simp [hp])]
      simp only [lookupA]
      split
      · rfl
      · exact ih

theorem lookupA_insertA_ne {α β : Type} [DecidableEq α]
    (l : List (α × β)) (k k' : α) (v : β) (h : k' ≠ k) :
    lookupA (insertA l k v) k' = lookupA l k' := by
  simp only [insertA, lookupA]
  rw [if_neg (fun hc => h hc.symm), lookupA_filter_ne l k k' h]

theorem lookupA_extendA_not_mem {α β : Type} [DecidableEq α]
    (news l : List (α × β)) (k : α) (h : k ∉ news.map Prod.fst) :
    lookupA (extendA l news) k = lookupA l k := by
  induction news generalizing l with
  | nil => rfl
  | cons p rest ih =>
    simp only [List.map_cons, List.mem_cons] at h
    push_neg at h
    simp only [extendA, List.foldl_cons]
    rw [show (rest.foldl (fun acc q => insertA acc q.1 q.2)
        (insertA l p.1 p.2)) = extendA (insertA l p.1 p.2) rest from rfl]
    rw [ih (insertA l p.1 p.2) h.2, lookupA_insertA_ne _ _ _ _ h.1]

theorem lookupA_extendA_mem {α β : Type} [DecidableEq α]
    (news l : List (α × β)) (k : α) (v : β)
    (hnd : (news.map Prod.fst).Nodup) (hm : (k, v) ∈ news) :
    lookupA (extendA l news) k = some v := by
  induction news generalizing l with
  | nil => cases hm
  | cons p rest ih =>
    obtain ⟨pk, pv⟩ := p
    simp only [List.map_cons, List.nodup_cons] at hnd
    simp only [extendA, List.foldl_cons]
    rw [show (rest.foldl (fun acc q => insertA acc q.1 q.2)
        (insertA l pk pv)) = extendA (insertA l pk pv) rest from rfl]
    rcases List.mem_cons.mp hm with heq | hmem
    · injection heq with h1 h2
      subst h1; subst h2
      rw [lookupA_extendA_not_mem rest _ k hnd.1, lookupA_insertA_self]
    · exact ih (insertA l pk pv) hnd.2 hmem

theorem lookupA_none_of_not_mem {α β : Type} [DecidableEq α]
    (l : List (α × β)) (k : α) (h : k ∉ l.map Prod.fst) :
    lookupA l k = none := by
  induction l with
  | nil => rfl
  | cons p rest ih =>
    simp only [List.map_cons, List.mem_cons] at h
    push_neg at h
    cases p with
    | mk pk pv =>
      simp only [lookupA]
      rw [if_neg (fun hc => h.1 hc.symm), ih h.2]

theorem mem_of_lookupA_eq_some {α β : Type} [DecidableEq α]
    (l : List (α × β)) (k : α) (v : β) (h : lookupA l k = some v) :
    (k, v) ∈ l := by
  induction l with
  | nil => simp [lookupA] at h
  | cons p rest ih =>
    cases p with
    | mk pk pv =>
      simp only [lookupA] at h
      split at h
      · rename_i heq
        cases h
        rw [heq]
        exact List.mem_cons_self _ _
      · exact List.mem_cons_of_mem _ (ih h)

theorem lookupA_filter_addr (l : List ((Address × U256) × U256))
    (a : Address) (s : U256) :
    lookupA (l.filter (fun p => p.1.1 ≠ a)) (a, s) = none := by
  induction l with
  | nil => rfl
  | cons p rest ih =>
    obtain ⟨pk, pv⟩ := p
    by_cases hp : pk.1 = a
    · rw [List.filter_cons_of_neg (by simp [hp])]
      exact ih
    · rw [List.filter_cons_of_pos (by simp [hp])]
      simp only [lookupA]
      rw [if_neg (by rintro rfl; exact hp rfl)]
      exact ih

theorem insertA_keys_nodup {α β : Type} [DecidableEq α]
    (l : List (α × β)) (k : α) (v : β)
    (h : (l.map Prod.fst).Nodup) :
    ((insertA l k v).map Prod.fst).Nodup := by
  simp only [insertA, List.map_cons, List.nodup_cons]
  constructor
  · intro hmem
    rcases List.mem_map.mp hmem with ⟨p, hp, hpk⟩
    have h2 := List.of_mem_filter hp
    simp only [ne_eq, decide_not, Bool.not_eq_true',
      decide_eq_false_iff_not] at h2
    exact h2 hpk
  · exact List.Nodup.sublist
      (List.Sublist.map Prod.fst (List.filter_sublist l)) h

theorem extendA_keys_nodup {α β : Type} [DecidableEq α]
    (news l : List (α × β)) (h : (l.map Prod.fst).Nodup) :
    ((extendA l news).map Prod.fst).Nodup := by
  induction news generalizing l with
  | nil => exact h
  | cons p rest ih =>
    simp only [extendA, List.foldl_cons]
    exact ih (insertA l p.1 p.2) (insertA_keys_nodup l p.1 p.2 h)

theorem not_mem_of_lookupA_none {α β : Type} [DecidableEq α]
    (l : List (α × β)) (k : α) (h : lookupA l k = none) :
    k ∉ l.map Prod.fst := by
  induction l with
  | nil => simp
  | cons p rest ih =>
    obtain ⟨pk, pv⟩ := p
    simp only [lookupA] at h
    split at h
    · cases h
    · rename_i hne
      simp only [List.map_cons, List.mem_cons]
      rintro (hc | hc)
      · exact hne hc.symm
      · exact ih h hc

theorem lookupA_extendA_nil {α β : Type} [DecidableEq α]
    (news : List (α × β)) (k : α) (hnd : (news.map Prod.fst).Nodup) :
    lookupA (extendA ([] : List (α × β)) news) k = lookupA news k := by
  cases h : lookupA news k with
  | some v =>
    exact lookupA_extendA_mem news [] k v hnd (mem_of_lookupA_eq_some _ _ _ h)
  | none =>
    rw [lookupA_extendA_not_mem news [] k (not_mem_of_lookupA_none _ _ h)]
    rfl

theorem patch_keys_eq (a : Address) (stor : List (U256 × U256)) :
    (stor.map (fun p => ((a, p.1), p.2))).map Prod.fst
      = (stor.map Prod.fst).map (fun s => (a, s)) := by
  simp [List.map_map, Function.comp]

theorem patch_keys_nodup (a : Address) (stor : List (U256 × U256))
    (hnd : (stor.map Prod.fst).Nodup) :
    ((stor.map (fun p => ((a, p.1), p.2))).map Prod.fst).Nodup := by
  rw [patch_keys_eq]
  exact hnd.map (fun x y hxy => by injection hxy)

theorem patch_not_mem (a : Address) (stor : List (U256 × U256)) (s : U256)
    (h : s ∉ stor.map Prod.fst) :
    (a, s) ∉ (stor.map (fun p => ((a, p.1), p.2))).map Prod.fst := by
  rw [patch_keys_eq]
  intro hc
  rcases List.mem_map.mp hc with ⟨x, hx, hxs⟩
  injection hxs with _ h2
  exact h (h2 ▸ hx)

/-- Reading the overridden address after a full-replace commit: a slot in
the committed patch reads its value, any other slot reads zero. -/
theorem readStorage_commit_cleared (st : BackendState) (a : Address)
    (acc : Account) (fork : Address → U256 → U256) (s : U256)
    (hc : acc.storage_cleared = true)
    (hnd : (acc.storage.map Prod.fst).Nodup) :
    (st.commit a acc).readStorage fork a s
      = match lookupA acc.storage s with
        | some v => v
        | none => 0 := by
  simp only [BackendState.commit, hc, if_true, BackendState.readStorage]
  cases h : lookupA acc.storage s with
  | some v =>
    rw [lookupA_extendA_mem _ _ _ v (patch_keys_nodup a acc.storage hnd)
      (List.mem_map_of_mem _ (mem_of_lookupA_eq_some _ _ _ h))]
  | none =>
    rw [lookupA_extendA_not_mem _ _ _
      (patch_not_mem a acc.storage s (not_mem_of_lookupA_none _ _ h)),
      lookupA_filter_addr]
    simp

/-- Reading the overridden address after a patch commit: a slot in the
committed patch reads its value, any other slot reads as before. -/
theorem readStorage_commit_not_cleared (st : BackendState) (a : Address)
    (acc : Account) (fork : Address → U256 → U256) (s : U256)
    (hc : acc.storage_cleared = false)
    (hnd : (acc.storage.map Prod.fst).Nodup) :
    (st.commit a acc).readStorage fork a s
      = match lookupA acc.storage s with
        | some v => v
        | none => st.readStorage fork a s := by
  simp only [BackendState.commit, hc, if_false, BackendState.readStorage,
    Bool.false_eq_true]
  cases h : lookupA acc.storage s with
  | some v =>
    rw [lookupA_extendA_mem _ _ _ v (patch_keys_nodup a acc.storage hnd)
      (List.mem_map_of_mem _ (mem_of_lookupA_eq_some _ _ _ h))]
  | none =>
    rw [lookupA_extendA_not_mem _ _ _
      (patch_not_mem a acc.storage s (not_mem_of_lookupA_none _ _ h))]

/-- The storage part of a merged account: the override slots collected into
a map, with `storage_cleared` exactly when the override is not a diff. -/
theorem mergeAccount_storage (info : AccountInfo) (b : Option U256)
    (n : Option Nat) (c : Option (List Nat)) (so : StorageOverride) :
    (mergeAccount info b n c (some so)).storage = extendA [] so.slots ∧
    (mergeAccount info b n c (some so)).storage_cleared = !so.diff := by
  cases b <;> cases n <;> cases c <;> exact ⟨rfl, rfl⟩

/-! Lemmas about trace rendering. -/

/-- Concatenation of the rendered text lines of a list of trace nodes. -/
def concatTexts : List TraceNode → String
  | [] => ""
  | n :: ns => n.text ++ concatTexts ns

theorem concatTexts_append (l1 l2 : List TraceNode) :
    concatTexts (l1 ++ l2) = concatTexts l1 ++ concatTexts l2 := by
  induction l1 with
  | nil => simp [concatTexts]
  | cons n ns ih =>
    simp only [List.cons_append, concatTexts, List.append_eq, ih,
      String.append_assoc]

mutual

theorem renderNode_eq_preorder (t : TraceNode) :
    renderNode t = concatTexts (preorderNode t) := by
  cases t with
  | mk s kids =>
    rw [renderNode, preorderNode, concatTexts,
      renderList_eq_preorder kids]
    rfl

theorem renderList_eq_preorder (ks : List TraceNode) :
    renderList ks = concatTexts (preorderList ks) := by
  cases ks with
  | nil => rfl
  | cons k rest =>
    rw [renderList, preorderList, concatTexts_append,
      renderNode_eq_preorder k, renderList_eq_preorder rest]

end

/-- The arena rendering is the concatenation, in depth-first pre-order, of
the rendered text of every node. -/
theorem renderArena_eq_preorder (arena : CallTraceArena) :
    renderArena arena = concatTexts (preorderArena arena) :=
  renderList_eq_preorder arena

/-! Claim theorems. -/

/-- C1: a `call_raw` never mutates the backend-observable account and
storage state: the backend state after the call equals the state before it,
and invoking the call twice in sequence leaves the state equal to the
original before and after each invocation. -/
theorem C1_call_raw_purity (sem : ExecSem) (evm : Evm)
    (call : CallRawRequest) :
    (Evm.call_raw sem evm call).2.executor.db = evm.executor.db ∧
    (Evm.call_raw sem (Evm.call_raw sem evm call).2 call).2.executor.db
      = evm.executor.db := by
  refine ⟨call_raw_db_eq sem evm call, ?_⟩
  rw [call_raw_db_eq, call_raw_db_eq]

/-- C3: `call_raw_committing` behaves identically to `call_raw` — same
result value and same resulting execution context for the same request and
initial state — except that the raw call leaves the backend state
untouched while the committing call applies the state diff the execution
produced. -/
theorem C3_committing_refines_raw (sem : ExecSem) (evm : Evm)
    (call : CallRawRequest) :
    (Evm.call_raw_committing sem evm call).1 = (Evm.call_raw sem evm call).1 ∧
    (Evm.call_raw_committing sem evm call).2.executor.env
      = (Evm.call_raw sem evm call).2.executor.env ∧
    (Evm.call_raw sem evm call).2.executor.db = evm.executor.db ∧
    (∀ o, sem (Evm.set_access_list evm call.access_list).executor.env
        evm.executor.db call.sender call.recipient
        (call.data.getD []) (call.value.getD 0) = .ok o →
      (Evm.call_raw_committing sem evm call).2.executor.db
        = applyDiff evm.executor.db o.diff) := by
  have hdb : (Evm.set_access_list evm call.access_list).executor.db
      = evm.executor.db := rfl
  refine ⟨?_, ?_, call_raw_db_eq sem evm call, ?_⟩
  · simp only [Evm.call_raw, Evm.call_raw_committing, Executor.call_raw,
      Executor.call_raw_committing]
    cases h : sem (Evm.set_access_list evm call.access_list).executor.env
        (Evm.set_access_list evm call.access_list).executor.db
        call.sender call.recipient (call.data.getD []) (call.value.getD 0) with
    | error e => simp
    | ok o => simp
  · simp only [Evm.call_raw, Evm.call_raw_committing, Executor.call_raw,
      Executor.call_raw_committing]
    cases h : sem (Evm.set_access_list evm call.access_list).executor.env
        (Evm.set_access_list evm call.access_list).executor.db
        call.sender call.recipient (call.data.getD []) (call.value.getD 0) with
    | error e => simp
    | ok o => simp
  · intro o h
    simp only [Evm.call_raw_committing, Executor.call_raw_committing, hdb, h]

/-- C3 witness: at a concrete semantics, engine and request, the two calls
agree on the result and the committing call applies the diff. -/
theorem C3_committing_refines_raw_witness :
    (Evm.call_raw_committing sem0 evm0 call0).2.executor.db
      = applyDiff evm0.executor.db outcome0.diff :=
  (C3_committing_refines_raw sem0 evm0 call0).2.2.2 outcome0 rfl

/-- C5: both `call_raw` and `call_raw_committing` overwrite the context's
tx access list with the request's converted access list (or clear it when
absent) before executing, the mutation surviving the call; executing on an
engine whose access list was already so set changes nothing. -/
theorem C5_access_list_set_and_persisted (sem : ExecSem) (evm : Evm)
    (call : CallRawRequest) :
    (Evm.call_raw sem evm call).2.executor.env.tx.access_list
      = (call.access_list.getD []).map
          (fun item => (item.address, item.storage_keys)) ∧
    (Evm.call_raw_committing sem evm call).2.executor.env.tx.access_list
      = (call.access_list.getD []).map
          (fun item => (item.address, item.storage_keys)) ∧
    Evm.call_raw sem evm call
      = Evm.call_raw sem (Evm.set_access_list evm call.access_list) call ∧
    Evm.call_raw_committing sem evm call
      = Evm.call_raw_committing sem
          (Evm.set_access_list evm call.access_list) call := by
  refine ⟨?_, ?_, ?_, ?_⟩
  · simp only [Evm.call_raw, Executor.call_raw]
    cases h : sem (Evm.set_access_list evm call.access_list).executor.env
        (Evm.set_access_list evm call.access_list).executor.db
        call.sender call.recipient (call.data.getD []) (call.value.getD 0) with
    | error e => rfl
    | ok o => rfl
  · simp only [Evm.call_raw_committing, Executor.call_raw_committing]
    cases h : sem (Evm.set_access_list evm call.access_list).executor.env
        (Evm.set_access_list evm call.access_list).executor.db
        call.sender call.recipient (call.data.getD []) (call.value.getD 0) with
    | error e => rfl
    | ok o => rfl
  · simp only [Evm.call_raw, set_access_list_idem]
  · simp only [Evm.call_raw_committing, set_access_list_idem]

/-- C7: the context accessors round-trip (`set_block` then `get_block`
returns exactly the value set, and likewise for the timestamp), the
setters always succeed, and they leave the backend state — basic account
info and every storage read — unchanged. -/
theorem C7_context_accessors_roundtrip (evm : Evm) (n t : Nat)
    (fork : Address → U256 → U256) (a : Address) (s : U256) :
    (Evm.set_block evm n).2.get_block = n ∧
    (Evm.set_block_timestamp evm t).2.get_block_timestamp = t ∧
    (Evm.set_block evm n).1 = .ok () ∧
    (Evm.set_block_timestamp evm t).1 = .ok () ∧
    (Evm.set_block evm n).2.executor.db = evm.executor.db ∧
    (Evm.set_block_timestamp evm t).2.executor.db = evm.executor.db ∧
    (Evm.set_block evm n).2.executor.db.basic a = evm.executor.db.basic a ∧
    BackendState.readStorage fork (Evm.set_block evm n).2.executor.db a s
      = BackendState.readStorage fork evm.executor.db a s :=
  ⟨rfl, rfl, rfl, rfl, rfl, rfl, rfl, rfl⟩

/-- C8: construction defaults the execution context to zero gas price and
`u64::MAX` gas limit unless an explicit context is supplied, in which case
the explicit context supersedes the defaults entirely; a failed labeler
initialization only leaves the labeling identifier absent, the rest of the
engine being identical to a successful construction. -/
theorem C8_construction_defaults_and_labeler (env? : Option Env)
    (fork : ForkInfo) (tracing : Bool) (eInit : Except Unit String)
    (sInit : Except Unit Unit) (e : Env) :
    (Evm.new none fork tracing eInit sInit).executor.env.tx.gas_price = 0 ∧
    (Evm.new none fork tracing eInit sInit).executor.env.block.gas_limit
      = u64MAX ∧
    (Evm.new (some e) fork tracing eInit sInit).executor.env = e ∧
    (Evm.new env? fork tracing (.error ()) sInit).etherscan_identifier
      = none ∧
    (Evm.new env? fork tracing (.error ()) sInit).executor
      = (Evm.new env? fork tracing eInit sInit).executor :=
  ⟨rfl, rfl, rfl, rfl, rfl⟩

/-- C2: storage overrides follow the merge-vs-replace semantics.  With
`diff = false` the account's storage is fully replaced: a listed slot reads
its override value and every other slot reads zero — nothing is fetched
from the fork, the read being independent of the fork function.  With
`diff = true` the slots are a patch: a listed slot reads its override
value and every untouched slot reads exactly what it read before. -/
theorem C2_storage_override_semantics (evm : Evm) (a : Address)
    (b : Option U256) (n : Option Nat) (c : Option (List Nat))
    (slots : List (U256 × U256)) (fork : Address → U256 → U256) (s : U256)
    (hnd : (slots.map Prod.fst).Nodup)
    (hb : a ∉ evm.executor.db.basicErr) :
    BackendState.readStorage fork
        (evm.override_account a b n c
          (some { slots := slots, diff := false })).2.executor.db a s
      = (lookupA slots s).getD 0 ∧
    BackendState.readStorage fork
        (evm.override_account a b n c
          (some { slots := slots, diff := true })).2.executor.db a s
      = (match lookupA slots s with
         | some v => v
         | none => BackendState.readStorage fork evm.executor.db a s) := by
  have hext : ∀ k, lookupA (extendA ([] : List (U256 × U256)) slots) k
      = lookupA slots k := fun k => lookupA_extendA_nil slots k hnd
  have hndx : ((extendA ([] : List (U256 × U256)) slots).map Prod.fst).Nodup :=
    extendA_keys_nodup slots [] (by simp)
  constructor
  · simp only [Evm.override_account, BackendState.basic, if_neg hb]
    have hm := mergeAccount_storage
      ((lookupA evm.executor.db.accounts a).getD AccountInfo.default)
      b n c { slots := slots, diff := false }
    rw [readStorage_commit_cleared _ _ _ _ _ (by rw [hm.2]; rfl)
      (by rw [hm.1]; exact hndx)]
    rw [hm.1, hext]
    cases lookupA slots s <;> rfl
  · simp only [Evm.override_account, BackendState.basic, if_neg hb]
    have hm := mergeAccount_storage
      ((lookupA evm.executor.db.accounts a).getD AccountInfo.default)
      b n c { slots := slots, diff := true }
    rw [readStorage_commit_not_cleared _ _ _ _ _ (by rw [hm.2]; rfl)
      (by rw [hm.1]; exact hndx)]
    rw [hm.1, hext]

/-- C2 witness: overriding account 1 (previously holding slots 1 and 2)
with the single slot `{1: 9}` in full-replace mode makes slot 2 read zero
rather than its fetched value. -/
theorem C2_storage_override_semantics_witness :
    BackendState.readStorage (fun _ _ => 77)
        (evm0.override_account 1 none none none
          (some { slots := [(1, 9)], diff := false })).2.executor.db 1 2 = 0 :=
  ((C2_storage_override_semantics evm0 1 none none none [(1, 9)]
      (fun _ _ => 77) 2 (by decide) (by decide)).1).trans (by decide)

/-- Computation shape of `override_account`: a single match on the basic
read, erroring without touching the engine or committing the merged
account. -/
theorem override_account_eq (evm : Evm) (a : Address) (b : Option U256)
    (n : Option Nat) (c : Option (List Nat)) (s : Option StorageOverride) :
    evm.override_account a b n c s
      = match evm.executor.db.basic a with
        | .error _ => (.error .mk, evm)
        | .ok info? =>
          (.ok (), { evm with executor := { evm.executor with
            db := evm.executor.db.commit a
              (mergeAccount (info?.getD AccountInfo.default) b n c s) } }) := by
  rw [Evm.override_account]

/-- C4: `override_account` fails with `OverrideError` exactly when the
address's basic info cannot be read; on that failure the engine — its
backend state included — is left untouched, and on success the merged
account is written to the backend as the single commit for that address,
the context and the decoder handles untouched. -/
theorem C4_override_error_exactness (evm : Evm) (a : Address)
    (b : Option U256) (n : Option Nat) (c : Option (List Nat))
    (s : Option StorageOverride) :
    ((evm.override_account a b n c s).1 = .error .mk ↔
      evm.executor.db.basic a = .error ()) ∧
    (evm.executor.db.basic a = .error () →
      (evm.override_account a b n c s).2 = evm) ∧
    (∀ info?, evm.executor.db.basic a = .ok info? →
      (evm.override_account a b n c s).1 = .ok () ∧
      (evm.override_account a b n c s).2.executor.db
        = evm.executor.db.commit a
            (mergeAccount (info?.getD AccountInfo.default) b n c s) ∧
      (evm.override_account a b n c s).2.executor.env = evm.executor.env ∧
      (evm.override_account a b n c s).2.etherscan_identifier
        = evm.etherscan_identifier) := by
  cases h : evm.executor.db.basic a with
  | error e =>
    cases e
    simp [override_account_eq, h]
  | ok info? =>
    simp only [override_account_eq, h]
    refine ⟨by simp, by simp, ?_⟩
    intro i hc
    injection hc with hc2
    subst hc2
    exact ⟨by simp, by trivial, by trivial, by trivial⟩

/-- C4 witness: at the concrete engine, overriding address 9 (whose basic
read fails) yields the error, and overriding address 1 succeeds. -/
theorem C4_override_error_exactness_witness :
    (evm0.override_account 9 none none none none).1 = .error .mk ∧
    (evm0.override_account 1 (some 5) none none none).1 = .ok () := by
  constructor
  · exact (C4_override_error_exactness evm0 9 none none none none).1.mpr rfl
  · exact ((C4_override_error_exactness evm0 1 (some 5) none none
      none).2.2 (some { balance := 100, nonce := 1, code := none }) rfl).1

/-- C9: when the basic-info read succeeds but finds no account,
`override_account` does not fail: it merges the provided overrides on top
of the default account — zero balance, zero nonce, no code — and commits
the result. -/
theorem C9_override_missing_account (evm : Evm) (a : Address)
    (b : Option U256) (n : Option Nat) (c : Option (List Nat))
    (s : Option StorageOverride)
    (h : evm.executor.db.basic a = .ok none) :
    (evm.override_account a b n c s).1 = .ok () ∧
    (evm.override_account a b n c s).2.executor.db
      = evm.executor.db.commit a
          (mergeAccount { balance := 0, nonce := 0, code := none } b n c s) := by
  simp only [override_account_eq, h]
  exact ⟨by trivial, by rfl⟩

/-- C9 witness: address 3 is unknown to the concrete backend yet its
override succeeds and commits the default account patched with the
provided balance. -/
theorem C9_override_missing_account_witness :
    (evm0.override_account 3 (some 42) none none none).1 = .ok () ∧
    (evm0.override_account 3 (some 42) none none none).2.executor.db
      = evm0.executor.db.commit 3
          (mergeAccount { balance := 0, nonce := 0, code := none }
            (some 42) none none none) :=
  C9_override_missing_account evm0 3 (some 42) none none none rfl

/-- C6: with tracing enabled at construction, a successful `call_raw`
always populates the raw trace field; the formatted text is present
exactly when `format_trace` was requested and is then the concatenation,
in depth-first pre-order, of the rendered text of every trace node; and
the success flag is the negation of the backend's reverted flag. -/
theorem C6_trace_toggle (sem : ExecSem) (evm : Evm) (call : CallRawRequest)
    (res : CallRawResult)
    (htr : evm.executor.tracing = true)
    (hok : (Evm.call_raw sem evm call).1 = .ok res) :
    (∃ arena, res.trace = some arena ∧
      res.formatted_trace = (if call.format_trace then
        some (concatTexts (preorderArena arena)) else none)) ∧
    (∀ o, sem (Evm.set_access_list evm call.access_list).executor.env
        evm.executor.db call.sender call.recipient (call.data.getD [])
        (call.value.getD 0) = .ok o → res.success = !o.reverted) := by
  have hdb : (Evm.set_access_list evm call.access_list).executor.db
      = evm.executor.db := rfl
  have htr2 : (Evm.set_access_list evm call.access_list).executor.tracing
      = true := htr
  cases h : sem (Evm.set_access_list evm call.access_list).executor.env
      (Evm.set_access_list evm call.access_list).executor.db
      call.sender call.recipient (call.data.getD []) (call.value.getD 0) with
  | error e => simp [Evm.call_raw, Executor.call_raw, h] at hok
  | ok o =>
    simp only [Evm.call_raw, Executor.call_raw, h, Except.ok.injEq] at hok
    subst hok
    constructor
    · refine ⟨o.traces, ?_, ?_⟩
      · simp [assembleResult, ExecOutcome.toRaw, htr2]
      · cases hf : call.format_trace with
        | false => simp [assembleResult, hf]
        | true =>
          simp [assembleResult, ExecOutcome.toRaw, htr2, hf, formatTraces,
            renderArena_eq_preorder, preorderArena]
    · intro o' h'
      rw [hdb] at h
      rw [h] at h'
      injection h' with h2
      subst h2
      rfl

/-- C6 witness: on the traced concrete engine with formatting requested,
the concrete result's success flag is the negation of the outcome's
reverted flag, and the result carries the trace arena with its
depth-first rendering. -/
theorem C6_trace_toggle_witness :
    res0.success = !outcome0.reverted ∧
    res0.trace = some [node0] ∧ res0.formatted_trace = some "ABC" :=
  ⟨(C6_trace_toggle sem0 evm0 call0 res0 rfl rfl).2 outcome0 rfl, rfl, rfl⟩

/-- C10: with tracing disabled at construction but formatting requested, a
successful `call_raw` or `call_raw_committing` yields a present but empty
formatted trace and an absent raw trace. -/
theorem C10_format_without_tracing (sem : ExecSem) (evm : Evm)
    (call : CallRawRequest)
    (htr : evm.executor.tracing = false)
    (hfmt : call.format_trace = true) :
    (∀ res, (Evm.call_raw sem evm call).1 = .ok res →
      res.formatted_trace = some "" ∧ res.trace = none) ∧
    (∀ res, (Evm.call_raw_committing sem evm call).1 = .ok res →
      res.formatted_trace = some "" ∧ res.trace = none) := by
  have htr2 : (Evm.set_access_list evm call.access_list).executor.tracing
      = false := htr
  constructor
  · intro res hok
    cases h : sem (Evm.set_access_list evm call.access_list).executor.env
        (Evm.set_access_list evm call.access_list).executor.db
        call.sender call.recipient (call.data.getD []) (call.value.getD 0) with
    | error e => simp [Evm.call_raw, Executor.call_raw, h] at hok
    | ok o =>
      simp only [Evm.call_raw, Executor.call_raw, h, Except.ok.injEq] at hok
      subst hok
      constructor
      · simp [assembleResult, ExecOutcome.toRaw, htr2, hfmt, formatTraces]
      · simp [assembleResult, ExecOutcome.toRaw, htr2]
  · intro res hok
    cases h : sem (Evm.set_access_list evm call.access_list).executor.env
        (Evm.set_access_list evm call.access_list).executor.db
        call.sender call.recipient (call.data.getD []) (call.value.getD 0) with
    | error e =>
      simp [Evm.call_raw_committing, Executor.call_raw_committing, h] at hok
    | ok o =>
      simp only [Evm.call_raw_committing, Executor.call_raw_committing, h,
        Except.ok.injEq] at hok
      subst hok
      constructor
      · simp [assembleResult, ExecOutcome.toRaw, htr2, hfmt, formatTraces]
      · simp [assembleResult, ExecOutcome.toRaw, htr2]

/-- C10 witness: on the untraced concrete engine with formatting
requested, both calls return an empty formatted trace and no raw trace. -/
theorem C10_format_without_tracing_witness :
    res1.formatted_trace = some "" ∧ res1.trace = none :=
  (C10_format_without_tracing sem0 evm1 call0 rfl rfl).1 res1 rfl

end Temper
